import Mathlib

/-!
# Verification of the Curseless audio content moderation pipeline

A shallow embedding of `main.py` (class `AudioContentModerator`) and of the
pydub `AudioSegment` operations it invokes (millisecond slicing, concatenation
and the 20 ms fades), together with proofs and refutations of the frozen
specification claims.

Modelling conventions:
* An `AudioSegment` is a `List ℤ` of samples, at a fixed frame rate of
  1000 frames/second, so one frame is exactly one millisecond and pydub's
  `frame_count(ms)` is the identity.  Sample width is 2 bytes, so the
  `audioop` saturation range is `[-32768, 32767]`.
* Timestamps are exact rationals (`ℚ`); the concrete inputs used in witnesses
  and counterexamples are dyadic values on which Python's binary floating
  point arithmetic is exact, so the model and CPython agree there.
* File and model I/O (Whisper transcription, audio decoding, the
  `better_profanity` lexicon) are external collaborators; they enter the
  embedding as explicit inputs (word timelines, sample lists, classifier
  functions), as in spec §6.
-/

namespace Curseless

/-- Python sequence-slice index resolution: a negative index is wrapped once by
adding the length, then the result is clamped into `[0, n]`. -/
def pyIdx (n : ℕ) (v : ℤ) : ℕ :=
  if v < 0 then (v + n).toNat else min v.toNat n

/-- Python slice `xs[a:b]` on a sample list (CPython sequence semantics:
negative indices wrap once, then clamp; empty when the resolved start is not
before the resolved stop). pydub applies this to `self._data` at byte
granularity; at one sample per frame the byte and frame slices coincide. -/
def pySlice (xs : List ℤ) (a b : ℤ) : List ℤ :=
  let i := pyIdx xs.length a
  let j := pyIdx xs.length b
  (xs.drop i).take (j - i)

/-- pydub `AudioSegment._parse_position`: a negative millisecond position is
measured from the end (`val = len(self) - abs(val)`); at frame rate 1000 the
subsequent `frame_count` conversion is the identity. -/
def parsePosition (n : ℕ) (v : ℤ) : ℤ :=
  if v < 0 then (n : ℤ) + v else v

/-- pydub `AudioSegment.__getitem__` on a (stepless) millisecond slice
`xs[a:b]`, with `none` for an omitted bound: missing bounds default to `0` and
`len(self)`, both bounds are clamped above by `len(self)`, passed through
`_parse_position`, and the byte slice is taken with Python slice semantics.
The source then pads with up to 2 ms of silence when the slice returned fewer
bytes than `end - start` promised (`missing_frames`); the guard requires a
nonempty `data` (the silence frame is built from `data[:frame_width]`).  In
every slice this program performs the computed `missing` is `≤ 0`, so the
`TooManyMissingFrames` branch (more than 2 ms missing) is unreachable and is
not modelled. -/
def audioSlice (xs : List ℤ) (a b : Option ℤ) : List ℤ :=
  let n := xs.length
  let s0 := min (a.getD 0) (n : ℤ)
  let e0 := min (b.getD n) (n : ℤ)
  let sB := parsePosition n s0
  let eB := parsePosition n e0
  let data := pySlice xs sB eB
  let missing : ℤ := (eB - sB) - data.length
  if 0 < missing ∧ data ≠ [] then data ++ List.replicate missing.toNat 0 else data

/-- pydub `AudioSegment.get_frame(index)`: the raw byte slice
`self._data[index*frame_width : index*frame_width + frame_width]` — one frame
via plain Python slice semantics, with no length correction. -/
def get_frame (xs : List ℤ) (index : ℤ) : List ℤ :=
  pySlice xs index (index + 1)

/-- CPython `audioop` `fbound`: clamp a scaled sample into the 16-bit range
(values below `minval + 1` collapse to `minval`), then round toward minus
infinity. -/
def fbound (val : ℚ) : ℤ :=
  if val > 32767 then 32767
  else if val < -32768 + 1 then -32768
  else ⌊val⌋

/-- CPython `audioop.mul(fragment, width, factor)`: every sample is multiplied by the
factor and passed through `fbound`. -/
def audioop_mul (factor : ℚ) (xs : List ℤ) : List ℤ :=
  xs.map (fun s : ℤ => fbound ((s : ℚ) * factor))

/-- pydub `db_to_float(db, using_amplitude=True) = 10 ** (db / 20)`, for the
gains this program uses (`0` and `-120` dB, whose exponents are integral, so
the value is an exact rational). -/
def db_to_float (db : ℤ) : ℚ :=
  (10 : ℚ) ^ (db / 20)

/-- The body of pydub `AudioSegment.fade` after its `start`/`end`/`duration`
argument resolution, in the form reached by this program (`duration ≤ 100` ms,
so the precise one-gain-step-per-frame branch runs, and
`fade_frames = end_frame - start_frame`, nonzero here).  Mirrors the source:
emit the unfaded head `self[:start]` (gain-scaled when `from_gain ≠ 0`), then
one `get_frame` per frame index `start + i` scaled by the interpolated volume
`from_power + scale_step * i`, then the tail `self[end:]` (gain-scaled when
`to_gain ≠ 0`).  Note the source never clamps the resolved start below zero:
for segments shorter than the fade it is negative, and `get_frame` then wraps
around the data. -/
def fade_core (xs : List ℤ) (to_gain from_gain : ℤ) (s e : ℤ) : List ℤ :=
  let from_power := db_to_float from_gain
  let before0 := audioSlice xs none (some s)
  let before := if from_gain = 0 then before0 else audioop_mul from_power before0
  let gain_delta := db_to_float to_gain - from_power
  let fade_frames : ℤ := e - s
  let scale_step := gain_delta / (fade_frames : ℚ)
  let chunks := (List.range fade_frames.toNat).map
    (fun (i : ℕ) => audioop_mul (from_power + scale_step * (i : ℚ)) (get_frame xs (s + (i : ℤ))))
  let after0 := audioSlice xs (some e) none
  let after := if to_gain = 0 then after0 else audioop_mul (db_to_float to_gain) after0
  before ++ chunks.flatten ++ after

/-- pydub `AudioSegment.fade`: no-op when both gains are 0; otherwise clamp
the given `start`/`end` by `len(self)`, wrap them if negative, resolve the
missing bound from `duration`, and run the fade body `fade_core`. -/
def fade (xs : List ℤ) (to_gain from_gain : ℤ) (start0 end0 : Option ℤ)
    (duration : ℤ) : List ℤ :=
  if to_gain = 0 ∧ from_gain = 0 then xs
  else
    let n := xs.length
    let start1 := start0.map (fun s => min s (n : ℤ))
    let end1 := end0.map (fun e => min e (n : ℤ))
    let start2 := start1.map (fun s : ℤ => if s < 0 then s + (n : ℤ) else s)
    let end2 := end1.map (fun e : ℤ => if e < 0 then e + (n : ℤ) else e)
    let se : ℤ × ℤ :=
      match start2, end2 with
      | some s, _ => (s, s + duration)
      | none, some e => (e - duration, e)
      | none, none => (0, duration)
    fade_core xs to_gain from_gain se.1 se.2

/-- pydub `AudioSegment.fade_in(duration) = fade(from_gain=-120, start=0,
duration=duration)`. -/
def fade_in (xs : List ℤ) (duration : ℤ) : List ℤ :=
  fade xs 0 (-120) (some 0) none duration

/-- pydub `AudioSegment.fade_out(duration) = fade(to_gain=-120,
end=float('inf'), duration=duration)`; the infinite end is clamped to
`len(self)` by `fade`'s `min`, which we pass directly. -/
def fade_out (xs : List ℤ) (duration : ℤ) : List ℤ :=
  fade xs (-120) 0 none (some (xs.length : ℤ)) duration

/-- Python `int()` applied to a (real-valued) timestamp product: truncation
toward zero. -/
def pyint (q : ℚ) : ℤ :=
  if q < 0 then ⌈q⌉ else ⌊q⌋

/-- Python 3 `round()` to an integer: nearest integer, ties to even.  This is
the rounding the specification asserts for millisecond boundaries; it is kept
as a comparison point for the code's `int()` truncation. -/
def round_half_even (q : ℚ) : ℤ :=
  let f := ⌊q⌋
  let r := q - f
  if r < 1/2 then f
  else if 1/2 < r then f + 1
  else if f % 2 = 0 then f else f + 1

/-- One word of the transcription timeline, as built by
`AudioContentModerator._transcribe_audio`: the dictionary
`{"word": ..., "start_time": ..., "end_time": ...}` (text already lowercased
and trimmed by that method). -/
structure WordSeg where
  word : String
  start_time : ℚ
  end_time : ℚ
deriving DecidableEq

/-- One detected profanity instance, as built by
`AudioContentModerator._detect_profanity`: the dictionary
`{'word': ..., 'start_time': ..., 'end_time': ..., 'censored_text': ...}`. -/
structure ProfanityInstance where
  word : String
  start_time : ℚ
  end_time : ℚ
  censored_text : String
deriving DecidableEq

/-- The method `AudioContentModerator._detect_profanity`: scan the timeline in order and
keep the words the lexicon flags, recording the censored rendering.  The
external `better_profanity` lexicon enters as the two functions
`contains_prof` and `censor`. -/
def detect_profanity (contains_prof : String → Bool) (censor : String → String)
    (text_segments : List WordSeg) : List ProfanityInstance :=
  text_segments.filterMap (fun seg =>
    if contains_prof seg.word then
      some ⟨seg.word, seg.start_time, seg.end_time, censor seg.word⟩
    else none)

/-- The assignment `start_ms = int(instance['start_time'] * 1000)` in
`_replace_profanity`. -/
def startMs (inst : ProfanityInstance) : ℤ :=
  pyint (inst.start_time * 1000)

/-- The assignment `end_ms = int(instance['end_time'] * 1000)` in
`_replace_profanity`. -/
def endMs (inst : ProfanityInstance) : ℤ :=
  pyint (inst.end_time * 1000)

/-- The value `duration = end_ms - start_ms` in `_replace_profanity`. -/
def durMs (inst : ProfanityInstance) : ℤ :=
  endMs inst - startMs inst

/-- The body of the loop in `AudioContentModerator._replace_profanity`:
take the replacement prefix `self.replacement_sound[:duration]`, apply
`.fade_in(20).fade_out(20)`, and splice it in place of
`audio[start_ms:end_ms]` via `audio[:start_ms] + adjusted + audio[end_ms:]`
(pydub `+` with `crossfade=0` is plain data concatenation). -/
def splice_step (replacement_sound : List ℤ) (audio : List ℤ)
    (inst : ProfanityInstance) : List ℤ :=
  let adjusted_replacement := audioSlice replacement_sound none (some (durMs inst))
  let faded := fade_out (fade_in adjusted_replacement 20) 20
  audioSlice audio none (some (startMs inst)) ++ faded ++
    audioSlice audio (some (endMs inst)) none

/-- Python `profanity_instances.sort(key=lambda x: x['start_time'])`:
a stable ascending sort by the `start_time` key.  CPython's Timsort is
extensionally the unique stable sort for this comparison, modelled by the
stable `List.mergeSort`. -/
def pysort (l : List ProfanityInstance) : List ProfanityInstance :=
  l.mergeSort (fun a b => a.start_time ≤ b.start_time)

/-- The method `AudioContentModerator._replace_profanity`: sort the instance list in
place, then left-fold the splice step over it.  The in-place
`profanity_instances.sort(...)` mutation is modelled by store passing: the
function returns the processed audio together with the sorted list object the
caller's alias now sees. -/
def replace_profanity (replacement_sound : List ℤ) (audio : List ℤ)
    (profanity_instances : List ProfanityInstance) :
    List ℤ × List ProfanityInstance :=
  let sorted := pysort profanity_instances
  (sorted.foldl (splice_step replacement_sound) audio, sorted)

/-- The method `AudioContentModerator.process_audio`: transcription and audio decoding
are external (spec §6), so the decoded original audio and the word timeline
are inputs; the method detects profanity, splices, and returns the processed
audio together with the (mutated, i.e. sorted) instance list. -/
def process_audio (replacement_sound : List ℤ)
    (contains_prof : String → Bool) (censor : String → String)
    (audio : List ℤ) (text_segments : List WordSeg) :
    List ℤ × List ProfanityInstance :=
  let profanity_instances := detect_profanity contains_prof censor text_segments
  let r := replace_profanity replacement_sound audio profanity_instances
  (r.1, r.2)

/-- Python `f"{q:.2f}"` for the timestamps in the report: the value rounded
to two decimal places (ties to even), zero-padded to two digits. -/
def format2f (q : ℚ) : String :=
  let c := round_half_even (q * 100)
  let sign := if c < 0 then "-" else ""
  let a := c.natAbs
  let r := a % 100
  sign ++ toString (a / 100) ++ "." ++ (if r < 10 then "0" else "") ++ toString r

/-- The full text written by `AudioContentModerator.save_report`, one string
per `f.write` concatenated in order: the header and separator, then either
the no-profanity line (and early return) or the count line followed by the
per-instance blocks. -/
def save_report (profanity_instances : List ProfanityInstance) : String :=
  let header := "Audio Content Moderation Report\n" ++
    String.mk (List.replicate 30 '=') ++ "\n\n"
  if profanity_instances.isEmpty then
    header ++ "No profanity detected in the audio.\n"
  else
    header ++ "Total instances found: " ++ toString profanity_instances.length
      ++ "\n\n" ++
    String.join (profanity_instances.enum.map (fun p =>
      "Instance " ++ toString (p.1 + 1) ++ ":\n" ++
      "Word: " ++ p.2.word ++ "\n" ++
      "Censored Version: " ++ p.2.censored_text ++ "\n" ++
      "Timestamp: " ++ format2f p.2.start_time ++ "s - " ++
        format2f p.2.end_time ++ "s\n" ++
      String.mk (List.replicate 20 '-') ++ "\n"))

/-- The length (in ms = frames) of the replacement prefix the splice step
takes for an instance: `len(self.replacement_sound[:duration])`. -/
def takenLen (rs : List ℤ) (inst : ProfanityInstance) : ℤ :=
  ((audioSlice rs none (some (durMs inst))).length : ℤ)

/-- Plain in-bounds sample-range slice `[a, b)` used by the spec-modelled
splicer below ("Append the untouched slice `[emit_from, start_ms)` from the
original buffer"). -/
def intSlice (xs : List ℤ) (a b : ℤ) : List ℤ :=
  (xs.drop a.toNat).take (b - a).toNat

/-- Modelled from the spec (§4.3, one loop iteration of the IntervalSplicer
algorithm): state is the cursor `emit_from` and the output accumulated so
far.  `start_ms`/`end_ms` are rounded per §4.3 (`round(start*1000)`), the
start is clamped to `≥ emit_from` and to the buffer length, the untouched
slice `[emit_from, start_ms)` of the *original* buffer is appended, a prefix
of the replacement of length `duration_ms = max(end_ms - start_ms, 0)` is
taken (the whole clip when shorter), fades are applied (the spec says
"skipped or clamped" below 40 ms; we model "skipped", and the comparison
input below uses an empty clip, on which every reading coincides), and the
cursor advances to `end_ms`. -/
def spliceSpecStep (rs audio : List ℤ) (st : ℤ × List ℤ)
    (inst : ProfanityInstance) : ℤ × List ℤ :=
  let emit_from := st.1
  let s0 := round_half_even (inst.start_time * 1000)
  let e := round_half_even (inst.end_time * 1000)
  let s := min (max s0 emit_from) (audio.length : ℤ)
  let duration := max (e - s) 0
  let taken := audioSlice rs none (some duration)
  let faded := if taken.length < 40 then taken
    else fade_out (fade_in taken 20) 20
  (e, st.2 ++ intSlice audio emit_from s ++ faded)

/-- Modelled from the spec (§4.3 IntervalSplicer): walk the intervals left to
right with a running cursor `emit_from` initialized to 0, splicing against
the original buffer, and finally append the untouched tail
`[emit_from, end_of_original)`.  The code's `_replace_profanity` is compared
against this algorithm to settle whether it implements the claimed
`emit_from`/clamping walk. -/
def spliceSpec (rs audio : List ℤ) (l : List ProfanityInstance) : List ℤ :=
  let st := l.foldl (spliceSpecStep rs audio) (0, [])
  st.2 ++ intSlice audio st.1 (audio.length : ℤ)

/-! ## Helper lemmas about the pydub model -/

theorem pySlice_of_nonneg (xs : List ℤ) (a b : ℤ) (ha : 0 ≤ a) (hb : 0 ≤ b) :
    pySlice xs a b = (xs.drop a.toNat).take (b.toNat - a.toNat) := by
  unfold pySlice pyIdx
  rw [if_neg (by omega), if_neg (by omega)]
  rcases le_or_lt a.toNat xs.length with h | h
  · rw [min_eq_left h]
    rcases le_or_lt b.toNat xs.length with h2 | h2
    · rw [min_eq_left h2]
    · rw [min_eq_right (le_of_lt h2)]
      rw [List.take_of_length_le (by simp [List.length_drop]),
        List.take_of_length_le (by simp [List.length_drop]; omega)]
  · rw [min_eq_right (le_of_lt h)]
    have h2 : List.drop a.toNat xs = [] := List.drop_eq_nil_of_le (by omega)
    simp [h2]

theorem audioSlice_none_some (xs : List ℤ) (v : ℤ) (hv : 0 ≤ v) :
    audioSlice xs none (some v) = xs.take v.toNat := by
  have hn0 : (0:ℤ) ≤ (xs.length : ℤ) := Int.natCast_nonneg _
  have hminv : (0:ℤ) ≤ min v (xs.length : ℤ) := le_min hv hn0
  simp only [audioSlice, Option.getD, min_eq_left hn0, parsePosition]
  rw [if_neg (lt_irrefl (0:ℤ)), if_neg (not_lt.mpr hminv)]
  rw [pySlice_of_nonneg xs 0 (min v (xs.length:ℤ)) le_rfl hminv]
  simp only [Int.toNat_zero, List.drop_zero, Nat.sub_zero, List.length_take]
  rw [if_neg (by rintro ⟨h1, -⟩; omega)]
  rw [List.take_eq_take]
  omega

theorem audioSlice_some_none (xs : List ℤ) (v : ℤ) (hv : 0 ≤ v) :
    audioSlice xs (some v) none = xs.drop v.toNat := by
  have hn0 : (0:ℤ) ≤ (xs.length : ℤ) := Int.natCast_nonneg _
  have hminv : (0:ℤ) ≤ min v (xs.length : ℤ) := le_min hv hn0
  simp only [audioSlice, Option.getD, min_self, parsePosition]
  rw [if_neg (not_lt.mpr hminv), if_neg (not_lt.mpr hn0)]
  rw [pySlice_of_nonneg xs _ _ hminv hn0]
  rw [List.take_of_length_le (by simp [List.length_drop])]
  simp only [List.length_drop]
  rw [if_neg (by rintro ⟨h1, -⟩; omega)]
  rcases le_or_lt v (xs.length : ℤ) with h | h
  · rw [min_eq_left h]
  · rw [min_eq_right h.le]
    have h2 : List.drop v.toNat xs = [] := List.drop_eq_nil_of_le (by omega)
    have h3 : List.drop ((xs.length : ℤ)).toNat xs = [] :=
      List.drop_eq_nil_of_le (by omega)
    rw [h2, h3]

theorem fade_in_eq (xs : List ℤ) : fade_in xs 20 = fade_core xs 0 (-120) 0 20 := by
  have h0 : min (0:ℤ) (xs.length:ℤ) = 0 := min_eq_left (Int.natCast_nonneg _)
  simp [fade_in, fade, h0]

theorem fade_out_eq (xs : List ℤ) :
    fade_out xs 20 = fade_core xs (-120) 0 ((xs.length : ℤ) - 20) (xs.length : ℤ) := by
  have h1 : ¬((xs.length : ℤ) < 0) := not_lt.mpr (Int.natCast_nonneg _)
  simp [fade_out, fade, h1]

theorem get_frame_length_of_nonneg (xs : List ℤ) (i : ℤ) (hi : 0 ≤ i) :
    (get_frame xs i).length = if i < (xs.length : ℤ) then 1 else 0 := by
  unfold get_frame
  rw [pySlice_of_nonneg xs i (i+1) hi (by omega)]
  simp only [List.length_take, List.length_drop]
  split_ifs <;> omega

theorem sum_range_ite (n L : ℕ) :
    ((List.range n).map (fun (i : ℕ) => if (i : ℤ) < (L : ℤ) then 1 else 0)).sum
      = min n L := by
  induction n with
  | zero => simp
  | succ n ih =>
    rw [List.range_succ, List.map_append, List.sum_append, ih]
    simp only [List.map_cons, List.map_nil, List.sum_cons, List.sum_nil]
    split_ifs <;> omega

theorem fade_in_length (xs : List ℤ) : (fade_in xs 20).length = xs.length := by
  rw [fade_in_eq]
  simp only [fade_core, sub_zero, zero_add]
  norm_num
  rw [audioSlice_none_some xs 0 le_rfl, audioSlice_some_none xs 20 (by decide)]
  simp only [List.length_append, List.length_flatten, List.map_map,
    Int.toNat_zero, List.take_zero, List.length_drop]
  rw [List.map_congr_left (g := fun (i : ℕ) => if (i:ℤ) < (xs.length:ℤ) then 1 else 0)
    (by
      intro a _
      simp only [Function.comp_apply, audioop_mul, List.length_map]
      rw [get_frame_length_of_nonneg xs a (Int.natCast_nonneg _)])]
  rw [show (Int.toNat 20) = 20 from rfl, sum_range_ite]
  simp only [audioop_mul, List.length_map, List.length_nil]
  omega

theorem fade_out_length_of_ge (xs : List ℤ) (h : 20 ≤ xs.length) :
    (fade_out xs 20).length = xs.length := by
  rw [fade_out_eq]
  simp only [fade_core]
  norm_num
  have hs : (0:ℤ) ≤ (xs.length : ℤ) - 20 := by omega
  rw [audioSlice_none_some xs _ hs,
    audioSlice_some_none xs (xs.length : ℤ) (Int.natCast_nonneg _)]
  simp only [List.length_append, List.length_flatten, List.map_map,
    List.length_take, List.length_drop]
  rw [List.map_congr_left (g := fun (_ : ℕ) => 1)
    (by
      intro a ha
      simp only [List.mem_range] at ha
      simp only [Function.comp_apply, audioop_mul, List.length_map]
      rw [get_frame_length_of_nonneg xs _ (by omega)]
      rw [if_pos (by omega)])]
  rw [List.map_const', List.sum_replicate]
  simp only [List.length_range, smul_eq_mul, mul_one, audioop_mul, List.length_map,
    List.length_drop]
  omega

theorem faded_nil : fade_out (fade_in ([] : List ℤ) 20) 20 = [] := by decide

/-- Length of the program's faded replacement: when the taken replacement
prefix is empty or at least 20 ms long, the two fades preserve its length. -/
theorem faded_length (pre : List ℤ) (h : pre.length = 0 ∨ 20 ≤ pre.length) :
    (fade_out (fade_in pre 20) 20).length = pre.length := by
  rcases h with h0 | h20
  · rw [List.length_eq_zero.mp h0, faded_nil]
  · rw [fade_out_length_of_ge _ (by rw [fade_in_length]; exact h20), fade_in_length]

/-! ## Splice-step lemmas -/

theorem takenLen_eq_min (rs : List ℤ) (inst : ProfanityInstance)
    (h : 0 ≤ durMs inst) :
    takenLen rs inst = min (durMs inst) (rs.length : ℤ) := by
  unfold takenLen
  rw [audioSlice_none_some _ _ h]
  simp only [List.length_take]
  omega

theorem splice_step_eq_parts (rs audio : List ℤ) (inst : ProfanityInstance)
    (h0 : 0 ≤ startMs inst) (h1 : startMs inst ≤ endMs inst) :
    splice_step rs audio inst =
      audio.take (startMs inst).toNat ++
      fade_out (fade_in (audioSlice rs none (some (durMs inst))) 20) 20 ++
      audio.drop (endMs inst).toNat := by
  unfold splice_step
  rw [audioSlice_none_some audio _ h0, audioSlice_some_none audio _ (h0.trans h1)]

theorem splice_step_length (rs audio : List ℤ) (inst : ProfanityInstance)
    (h0 : 0 ≤ startMs inst) (h1 : startMs inst ≤ endMs inst)
    (h2 : endMs inst ≤ (audio.length : ℤ))
    (hf : takenLen rs inst = 0 ∨ 20 ≤ takenLen rs inst) :
    ((splice_step rs audio inst).length : ℤ)
      = (audio.length : ℤ) - durMs inst + takenLen rs inst := by
  have hlen := faded_length (audioSlice rs none (some (durMs inst))) (by
    unfold takenLen at hf
    omega)
  rw [splice_step_eq_parts rs audio inst h0 h1]
  simp only [List.length_append, List.length_take, List.length_drop]
  rw [hlen]
  have hd : durMs inst = endMs inst - startMs inst := rfl
  unfold takenLen
  omega

theorem foldl_splice_length (rs : List ℤ) :
    ∀ (l : List ProfanityInstance) (audio : List ℤ),
    (∀ i ∈ l, 0 ≤ startMs i ∧ startMs i ≤ endMs i) →
    (∀ i ∈ l, takenLen rs i = 0 ∨ 20 ≤ takenLen rs i) →
    (∀ n (hn : n < l.length),
        endMs l[n] + ((l.take n).map (fun j => durMs j - takenLen rs j)).sum
          ≤ (audio.length : ℤ)) →
    ((l.foldl (splice_step rs) audio).length : ℤ)
      = (audio.length : ℤ) - (l.map durMs).sum + (l.map (takenLen rs)).sum
  | [], audio, _, _, _ => by simp
  | i :: t, audio, hv, hf, hfit => by
    rw [List.foldl_cons]
    have h20 : endMs i ≤ (audio.length : ℤ) := by
      have h := hfit 0 (by simp)
      simpa using h
    have hstep := splice_step_length rs audio i (hv i (by simp)).1
      (hv i (by simp)).2 h20 (hf i (by simp))
    rw [foldl_splice_length rs t (splice_step rs audio i)
      (fun j hj => hv j (by simp [hj]))
      (fun j hj => hf j (by simp [hj]))
      (fun n hn => by
        have h := hfit (n+1) (by simpa using Nat.succ_lt_succ hn)
        simp only [List.getElem_cons_succ, List.take_succ_cons, List.map_cons,
          List.sum_cons] at h
        omega)]
    rw [hstep]
    simp only [List.map_cons, List.sum_cons]
    ring

/-! ## Sample-range bounds: every sample emitted by the fades lies in the
16-bit range, provided the input samples do (scaled samples via `fbound`,
raw pass-through samples by hypothesis). -/

theorem fbound_bounds (v : ℚ) : -32768 ≤ fbound v ∧ fbound v ≤ 32767 := by
  unfold fbound
  split_ifs with h1 h2
  · exact ⟨by norm_num, le_refl _⟩
  · exact ⟨le_refl _, by norm_num⟩
  · constructor
    · have : ((-32768 : ℤ) : ℚ) ≤ v := by push_cast; linarith
      exact Int.le_floor.mpr this
    · have h3 : ⌊v⌋ ≤ ⌊(32767 : ℚ)⌋ := Int.floor_le_floor (by linarith)
      simpa using h3

theorem audioop_mul_bounds (f : ℚ) (xs : List ℤ) :
    ∀ y ∈ audioop_mul f xs, -32768 ≤ y ∧ y ≤ 32767 := by
  intro y hy
  simp only [audioop_mul, List.mem_map] at hy
  obtain ⟨s, -, rfl⟩ := hy
  exact fbound_bounds _

theorem pySlice_subset (xs : List ℤ) (a b : ℤ) :
    ∀ y ∈ pySlice xs a b, y ∈ xs := by
  intro y hy
  unfold pySlice at hy
  exact ((List.take_sublist _ _).trans (List.drop_sublist _ _)).mem hy

theorem audioSlice_bounds (xs : List ℤ) (a b : Option ℤ)
    (hxs : ∀ y ∈ xs, -32768 ≤ y ∧ y ≤ 32767) :
    ∀ y ∈ audioSlice xs a b, -32768 ≤ y ∧ y ≤ 32767 := by
  intro y hy
  simp only [audioSlice] at hy
  split_ifs at hy with h
  · rcases List.mem_append.mp hy with h1 | h1
    · exact hxs y (pySlice_subset xs _ _ y h1)
    · rw [List.eq_of_mem_replicate h1]
      exact ⟨by norm_num, by norm_num⟩
  · exact hxs y (pySlice_subset xs _ _ y hy)

theorem fade_core_bounds (xs : List ℤ) (tg fg s e : ℤ)
    (hxs : ∀ y ∈ xs, -32768 ≤ y ∧ y ≤ 32767) :
    ∀ y ∈ fade_core xs tg fg s e, -32768 ≤ y ∧ y ≤ 32767 := by
  intro y hy
  simp only [fade_core, List.mem_append] at hy
  rcases hy with (hb | hc) | ha
  · split_ifs at hb with h
    · exact audioSlice_bounds xs _ _ hxs y hb
    · exact audioop_mul_bounds _ _ y hb
  · rw [List.mem_flatten] at hc
    obtain ⟨l, hl, hyl⟩ := hc
    rw [List.mem_map] at hl
    obtain ⟨i, -, rfl⟩ := hl
    exact audioop_mul_bounds _ _ y hyl
  · split_ifs at ha with h
    · exact audioSlice_bounds xs _ _ hxs y ha
    · exact audioop_mul_bounds _ _ y ha

theorem fade_bounds (xs : List ℤ) (tg fg : ℤ) (s0 e0 : Option ℤ) (d : ℤ)
    (hxs : ∀ y ∈ xs, -32768 ≤ y ∧ y ≤ 32767) :
    ∀ y ∈ fade xs tg fg s0 e0 d, -32768 ≤ y ∧ y ≤ 32767 := by
  intro y hy
  unfold fade at hy
  split_ifs at hy with h
  · exact hxs y hy
  · exact fade_core_bounds xs _ _ _ _ hxs y hy

theorem faded_replacement_bounds (rs : List ℤ) (d : ℤ)
    (hrs : ∀ y ∈ rs, -32768 ≤ y ∧ y ≤ 32767) :
    ∀ y ∈ fade_out (fade_in (audioSlice rs none (some d)) 20) 20,
      -32768 ≤ y ∧ y ≤ 32767 := by
  intro y hy
  exact fade_bounds _ _ _ _ _ _
    (fade_bounds _ _ _ _ _ _ (audioSlice_bounds rs _ _ hrs)) y hy

/-! ## Count lemmas: a splice step never duplicates a sample value that lies
outside the faded replacement's possible range. -/

theorem count_take_le (v : ℤ) (xs : List ℤ) (m k : ℕ) (h : m ≤ k) :
    (xs.take m).count v ≤ (xs.take k).count v := by
  have hsub : List.Sublist (xs.take m) (xs.take k) := by
    have hmk : xs.take m = (xs.take k).take m := by
      rw [List.take_take, min_eq_left h]
    rw [hmk]
    exact List.take_sublist _ _
  exact hsub.count_le v

theorem count_splice_step_le (rs audio : List ℤ) (inst : ProfanityInstance)
    (hrs : ∀ y ∈ rs, -32768 ≤ y ∧ y ≤ 32767)
    (h0 : 0 ≤ startMs inst) (h1 : startMs inst ≤ endMs inst)
    (v : ℤ) (hv : 32767 < v) :
    (splice_step rs audio inst).count v ≤ audio.count v := by
  rw [splice_step_eq_parts rs audio inst h0 h1]
  rw [List.count_append, List.count_append]
  have hmid : (fade_out (fade_in (audioSlice rs none (some (durMs inst))) 20) 20).count v
      = 0 := by
    rw [List.count_eq_zero]
    intro hmem
    have := faded_replacement_bounds rs _ hrs v hmem
    omega
  rw [hmid]
  have hmono : (audio.take (startMs inst).toNat).count v
      ≤ (audio.take (endMs inst).toNat).count v :=
    count_take_le v audio _ _ (by omega)
  have hsplit : (audio.take (endMs inst).toNat).count v
      + (audio.drop (endMs inst).toNat).count v = audio.count v := by
    rw [← List.count_append, List.take_append_drop]
  omega

theorem foldl_splice_count_le (rs : List ℤ)
    (hrs : ∀ y ∈ rs, -32768 ≤ y ∧ y ≤ 32767) (v : ℤ) (hv : 32767 < v) :
    ∀ (l : List ProfanityInstance) (audio : List ℤ),
    (∀ i ∈ l, 0 ≤ startMs i ∧ startMs i ≤ endMs i) →
    (l.foldl (splice_step rs) audio).count v ≤ audio.count v
  | [], _, _ => le_refl _
  | i :: t, audio, hval => by
    rw [List.foldl_cons]
    exact le_trans
      (foldl_splice_count_le rs hrs v hv t _ (fun j hj => hval j (by simp [hj])))
      (count_splice_step_le rs audio i hrs (hval i (by simp)).1
        (hval i (by simp)).2 v hv)

/-! ## Sorting lemmas -/

theorem pysort_le_trans : ∀ (a b c : ProfanityInstance),
    (fun a b : ProfanityInstance => decide (a.start_time ≤ b.start_time)) a b →
    (fun a b : ProfanityInstance => decide (a.start_time ≤ b.start_time)) b c →
    (fun a b : ProfanityInstance => decide (a.start_time ≤ b.start_time)) a c := by
  intro a b c hab hbc
  simp only [decide_eq_true_eq] at *
  exact le_trans hab hbc

theorem pysort_le_total : ∀ (a b : ProfanityInstance),
    ((fun a b : ProfanityInstance => decide (a.start_time ≤ b.start_time)) a b
      || (fun a b : ProfanityInstance => decide (a.start_time ≤ b.start_time)) b a) := by
  intro a b
  rcases le_total a.start_time b.start_time with h | h
  · simp [h]
  · simp [h]

theorem pysort_of_sorted (l : List ProfanityInstance)
    (h : l.Pairwise (fun a b => a.start_time ≤ b.start_time)) : pysort l = l := by
  apply List.mergeSort_of_sorted
  exact h.imp (fun hab => by simpa using hab)

theorem pysort_sorted (l : List ProfanityInstance) :
    (pysort l).Pairwise (fun a b => a.start_time ≤ b.start_time) := by
  have h := List.sorted_mergeSort pysort_le_trans pysort_le_total l
  exact h.imp (fun hab => by simpa using hab)

theorem pysort_perm (l : List ProfanityInstance) : (pysort l).Perm l :=
  List.mergeSort_perm l _

theorem pysort_filter_stable (l : List ProfanityInstance) (v : ℚ) :
    (pysort l).filter (fun i => i.start_time = v)
      = l.filter (fun i => i.start_time = v) := by
  have hall : ∀ x ∈ l.filter (fun i : ProfanityInstance => decide (i.start_time = v)),
      x.start_time = v := by
    intro x hx
    have := (List.mem_filter.mp hx).2
    simpa using this
  have hpair : (l.filter (fun i : ProfanityInstance => decide (i.start_time = v))).Pairwise
      (fun a b : ProfanityInstance => decide (a.start_time ≤ b.start_time)) := by
    apply List.pairwise_of_forall_mem_list
    intro a ha b hb
    simp only [decide_eq_true_eq]
    rw [hall a ha, hall b hb]
  have h1 := List.sublist_mergeSort pysort_le_trans pysort_le_total hpair
    (List.filter_sublist l)
  have h2 := h1.filter (fun i : ProfanityInstance => decide (i.start_time = v))
  rw [List.filter_eq_self.mpr (fun a ha => by simpa using hall a ha)] at h2
  have hperm := (pysort_perm l).filter
    (fun i : ProfanityInstance => decide (i.start_time = v))
  exact (h2.eq_of_length hperm.length_eq.symm).symm

/-! ## Claim theorems -/

set_option maxRecDepth 10000 in
unseal Rat.add Rat.mul Rat.inv Rat.sub Rat.ofScientific List.mergeSort List.merge in
/-- C1, counterexample: the claimed duration formula
`original - sum(durations) + sum(min(duration, clip_length))` fails on the
code.  Original audio 100 ms, clip 20 ms, intervals `[0,60)` and `[60,100)` ms
(sorted ascending, touching but non-overlapping, inside the buffer): the
formula predicts `100 - 100 + 40 = 40` ms, but the code splices against the
already-shrunk buffer using original-timeline indices, so the second
interval's `end_ms = 100` overshoots the 60 ms intermediate buffer and the
output is 80 ms. -/
theorem C1_duration_formula_cex :
    startMs (⟨"a", 0, 6/100, "*"⟩ : ProfanityInstance) = 0
    ∧ endMs (⟨"a", 0, 6/100, "*"⟩ : ProfanityInstance) = 60
    ∧ startMs (⟨"b", 6/100, 1/10, "*"⟩ : ProfanityInstance) = 60
    ∧ endMs (⟨"b", 6/100, 1/10, "*"⟩ : ProfanityInstance) = 100
    ∧ ((replace_profanity (List.replicate 20 7000) (List.replicate 100 5000)
        [⟨"a", 0, 6/100, "*"⟩, ⟨"b", 6/100, 1/10, "*"⟩]).1.length : ℤ) = 80
    ∧ (100 : ℤ) - (60 + 40) + (min (60:ℤ) 20 + min (40:ℤ) 20) = 40
    ∧ (80 : ℤ) ≠ 40 := by
  refine ⟨by decide, by decide, by decide, by decide, by decide, by decide, by decide⟩

/-- C1, amended: the duration formula
`|out| = original - Σ duration_i + Σ min(duration_i, clip_length)` holds for
sorted, valid (`0 ≤ start ≤ end`) interval lists provided additionally that
(a) every taken replacement prefix is empty or at least 20 ms long (so the
unconditional 20 ms fades preserve its length), and (b) each interval's
`end_ms`, increased by the cumulative shrinkage of the earlier splices, still
lies within the original buffer (so the original-timeline indices do not
overshoot the already-shrunk buffer). -/
theorem C1_duration_formula_amended (rs audio : List ℤ)
    (l : List ProfanityInstance)
    (hsorted : l.Pairwise (fun a b => a.start_time ≤ b.start_time))
    (hvalid : ∀ i ∈ l, 0 ≤ startMs i ∧ startMs i ≤ endMs i)
    (hfade : ∀ i ∈ l, takenLen rs i = 0 ∨ 20 ≤ takenLen rs i)
    (hfit : ∀ n : Fin l.length,
        endMs (l.get n) + ((l.take n.1).map (fun j => durMs j - takenLen rs j)).sum
          ≤ (audio.length : ℤ)) :
    ((replace_profanity rs audio l).1.length : ℤ)
      = (audio.length : ℤ) - (l.map durMs).sum
        + (l.map (fun i => min (durMs i) (rs.length : ℤ))).sum := by
  have hmap : l.map (takenLen rs) = l.map (fun i => min (durMs i) (rs.length : ℤ)) :=
    List.map_congr_left (fun i hi => takenLen_eq_min rs i (by
      have hv := hvalid i hi
      have hd : durMs i = endMs i - startMs i := rfl
      omega))
  simp only [replace_profanity]
  rw [pysort_of_sorted l hsorted]
  rw [foldl_splice_length rs l audio hvalid hfade
    (fun n hn => by simpa using hfit ⟨n, hn⟩)]
  rw [hmap]

set_option maxRecDepth 10000 in
unseal Rat.add Rat.mul Rat.inv Rat.sub Rat.ofScientific List.mergeSort List.merge in
/-- Witness for C1 (amended): 50 ms audio, 20 ms clip, single interval
`[0, 30)` ms; all hypotheses hold and the output length is
`50 - 30 + min 30 20 = 40`. -/
theorem C1_duration_formula_amended_witness :
    ((replace_profanity (List.replicate 20 7000) (List.replicate 50 5000)
        [⟨"a", 0, 3/100, "*"⟩]).1.length : ℤ)
      = ((List.replicate 50 (5000:ℤ)).length : ℤ)
        - ([⟨"a", 0, 3/100, "*"⟩].map durMs).sum
        + (([⟨"a", 0, 3/100, "*"⟩] : List ProfanityInstance).map
            (fun i => min (durMs i) ((List.replicate 20 (7000:ℤ)).length : ℤ))).sum :=
  C1_duration_formula_amended (List.replicate 20 7000) (List.replicate 50 5000)
    [⟨"a", 0, 3/100, "*"⟩] (by decide) (by decide) (by decide) (by decide)

set_option maxRecDepth 10000 in
unseal Rat.add Rat.mul Rat.inv Rat.sub Rat.ofScientific List.mergeSort List.merge in
/-- C2, counterexample: the splicer does not implement the claimed
`emit_from` cursor walk with start clamping.  On overlapping intervals
`[1,4)` and `[2,5)` ms over the 6 ms buffer `[10,20,30,40,50,60]` with an
empty replacement clip (so fade handling is immaterial), the code produces
`[10,50]` while the spec's cursor algorithm (`spliceSpec`) produces
`[10,60]`. -/
theorem C2_cursor_walk_cex :
    (replace_profanity [] [10,20,30,40,50,60]
        [⟨"a", 1/1000, 4/1000, "*"⟩, ⟨"b", 2/1000, 5/1000, "*"⟩]).1 = [10, 50]
    ∧ spliceSpec [] [10,20,30,40,50,60]
        [⟨"a", 1/1000, 4/1000, "*"⟩, ⟨"b", 2/1000, 5/1000, "*"⟩] = [10, 60]
    ∧ ([10, 50] : List ℤ) ≠ [10, 60] := by
  refine ⟨by decide, by decide, by decide⟩

/-- C2, amended: the code has no `emit_from` cursor — it re-slices the
partially spliced buffer at each interval's original-timeline indices — but
the claimed consequence still holds: since every splice step keeps the
disjoint slices `audio[:start_ms]` and `audio[end_ms:]` (with
`start_ms ≤ end_ms` for valid intervals) and inserts only fade-bounded
replacement samples, no sample of the original audio is ever duplicated,
even for overlapping or touching interval lists.  Formally: tagging original
samples with values above the 16-bit range (which no faded replacement sample
can attain, the clip being 16-bit audio), the multiplicity of every tag never
increases. -/
theorem C2_no_double_consumption_amended (rs audio : List ℤ)
    (l : List ProfanityInstance)
    (hrs : ∀ y ∈ rs, -32768 ≤ y ∧ y ≤ 32767)
    (hvalid : ∀ i ∈ l, 0 ≤ startMs i ∧ startMs i ≤ endMs i)
    (v : ℤ) (hv : 32767 < v) :
    ((replace_profanity rs audio l).1).count v ≤ audio.count v := by
  simp only [replace_profanity]
  apply foldl_splice_count_le rs hrs v hv (pysort l) audio
  intro i hi
  exact hvalid i ((pysort_perm l).subset hi)

set_option maxRecDepth 10000 in
unseal Rat.add Rat.mul Rat.inv Rat.sub Rat.ofScientific List.mergeSort List.merge in
/-- Witness for C2 (amended): overlapping intervals `[0,2)` and `[1,3)` ms on
a 4 ms buffer of tagged samples `40001`, clip `[100, -50]`: the tag count
never increases. -/
theorem C2_no_double_consumption_witness :
    ((replace_profanity [100, -50] [40001, 40001, 40001, 40001]
        [⟨"a", 0, 2/1000, "*"⟩, ⟨"b", 1/1000, 3/1000, "*"⟩]).1).count 40001
      ≤ ([40001, 40001, 40001, 40001] : List ℤ).count 40001 :=
  C2_no_double_consumption_amended [100, -50] [40001, 40001, 40001, 40001]
    [⟨"a", 0, 2/1000, "*"⟩, ⟨"b", 1/1000, 3/1000, "*"⟩]
    (by decide) (by decide) 40001 (by decide)

set_option maxRecDepth 10000 in
unseal Rat.add Rat.mul Rat.inv Rat.sub Rat.ofScientific List.mergeSort List.merge in
/-- C3, code bug: the code applies `.fade_in(20).fade_out(20)` to the taken
replacement prefix unconditionally — there is no skip or clamp for intervals
shorter than 40 ms.  For a 10 ms interval (`[5,15)` ms) the 20 ms `fade_out`
window exceeds the 10 ms prefix: pydub computes `start = len - 20 < 0` and its
per-frame loop then reads frames through Python's negative-index wraparound,
duplicating the prefix's samples; the "faded" segment comes out 19 ms long
(content repeated, rescaled) instead of 10 ms, and the spliced output is
39 ms instead of 30 ms.  The zero-duration part of the claim does hold
(empty prefix stays empty), but fade boundedness is violated. -/
theorem C3_fade_overrun_bug :
    (audioSlice (List.replicate 20 (2000:ℤ)) none (some 10)).length = 10
    ∧ (fade_out (fade_in (audioSlice (List.replicate 20 (2000:ℤ)) none (some 10)) 20)
        20).length = 19
    ∧ ((replace_profanity (List.replicate 20 2000) (List.replicate 30 1000)
        [⟨"x", 5/1000, 15/1000, "*"⟩]).1).length = 39
    ∧ fade_out (fade_in (audioSlice (List.replicate 20 (2000:ℤ)) none (some 0)) 20) 20
        = [] := by
  refine ⟨by decide, by decide, by decide, by decide⟩

/-- C4: splicing with an empty flagged-interval list returns the original
audio unchanged. -/
theorem C4_empty_detections_identity (rs audio : List ℤ) :
    (replace_profanity rs audio []).1 = audio := by
  simp [replace_profanity, pysort]

set_option maxRecDepth 10000 in
unseal Rat.add Rat.mul Rat.inv Rat.sub Rat.ofScientific List.mergeSort List.merge in
/-- C5, counterexample: for a single interval of 10 ms (`[5,15)` ms, duration
not exceeding the 20 ms clip), the output sample just after the interval's
end does *not* equal the original at the same position — the unconditional
20 ms `fade_out` lengthens the inserted segment (10 ms → 19 ms), shifting the
tail, so position 15 holds a (rescaled) replacement sample instead of the
original `1000`. -/
theorem C5_single_interval_cex :
    durMs (⟨"w", 5/1000, 15/1000, "*"⟩ : ProfanityInstance) = 10
    ∧ (10 : ℤ) ≤ ((List.replicate 20 (2000:ℤ)).length : ℤ)
    ∧ endMs (⟨"w", 5/1000, 15/1000, "*"⟩ : ProfanityInstance) = 15
    ∧ ((replace_profanity (List.replicate 20 2000) (List.replicate 30 1000)
        [⟨"w", 5/1000, 15/1000, "*"⟩]).1)[15]? ≠ (List.replicate 30 (1000:ℤ))[15]? := by
  refine ⟨by decide, by decide, by decide, by decide⟩

/-- C5, amended: for a single valid in-bounds interval whose duration does
not exceed the clip's length *and is zero or at least 20 ms* (so the fades
preserve the prefix length), the spliced output equals the original outside
the interval (same positions before `start_ms` and from `end_ms` on), and the
interval's span is exactly the faded replacement prefix of the interval's
duration. -/
theorem C5_single_interval_amended (rs audio : List ℤ) (inst : ProfanityInstance)
    (h0 : 0 ≤ startMs inst) (h1 : startMs inst ≤ endMs inst)
    (h2 : endMs inst ≤ (audio.length : ℤ))
    (hd : durMs inst ≤ (rs.length : ℤ))
    (hfade : durMs inst = 0 ∨ 20 ≤ durMs inst) :
    (∀ p : ℕ, (p : ℤ) < startMs inst →
        ((replace_profanity rs audio [inst]).1)[p]? = audio[p]?)
    ∧ (∀ p : ℕ, endMs inst ≤ (p : ℤ) →
        ((replace_profanity rs audio [inst]).1)[p]? = audio[p]?)
    ∧ (replace_profanity rs audio [inst]).1
        = audio.take (startMs inst).toNat ++
          fade_out (fade_in (audioSlice rs none (some (durMs inst))) 20) 20 ++
          audio.drop (endMs inst).toNat := by
  have hd0 : 0 ≤ durMs inst := by
    have : durMs inst = endMs inst - startMs inst := rfl
    omega
  have hsingle : (replace_profanity rs audio [inst]).1 = splice_step rs audio inst := by
    simp [replace_profanity, pysort]
  have hpre : (audioSlice rs none (some (durMs inst))).length = (durMs inst).toNat := by
    rw [audioSlice_none_some _ _ hd0]
    simp only [List.length_take]
    omega
  have hfl : (fade_out (fade_in (audioSlice rs none (some (durMs inst))) 20) 20).length
      = (durMs inst).toNat := by
    rw [faded_length _ (by omega)]
    exact hpre
  have hTake : (audio.take (startMs inst).toNat).length = (startMs inst).toNat := by
    simp only [List.length_take]
    omega
  have hdm : durMs inst = endMs inst - startMs inst := rfl
  refine ⟨?_, ?_, ?_⟩
  · intro p hp
    rw [hsingle, splice_step_eq_parts rs audio inst h0 h1]
    rw [List.getElem?_append_left (by
      simp only [List.length_append, hTake, hfl]
      omega)]
    rw [List.getElem?_append_left (by rw [hTake]; omega)]
    rw [List.getElem?_take_of_lt (by omega)]
  · intro p hp
    rw [hsingle, splice_step_eq_parts rs audio inst h0 h1]
    have houter : ((audio.take (startMs inst).toNat) ++
        fade_out (fade_in (audioSlice rs none (some (durMs inst))) 20) 20).length
        = (endMs inst).toNat := by
      simp only [List.length_append, hTake, hfl]
      omega
    rw [List.getElem?_append_right (by rw [houter]; omega)]
    rw [houter, List.getElem?_drop]
    have harith : (endMs inst).toNat + (p - (endMs inst).toNat) = p := by omega
    rw [harith]
  · rw [hsingle, splice_step_eq_parts rs audio inst h0 h1]

set_option maxRecDepth 10000 in
set_option maxHeartbeats 2000000 in
unseal Rat.add Rat.mul Rat.inv Rat.sub Rat.ofScientific List.mergeSort List.merge in
/-- Witness for C5 (amended): 50 ms audio, 40 ms clip, interval `[5,30)` ms
(duration 25, between 20 ms and the clip length); the output decomposes into
untouched head, faded prefix, untouched tail. -/
theorem C5_single_interval_amended_witness :
    (replace_profanity (List.replicate 40 7000) (List.replicate 50 5000)
        [⟨"w", 5/1000, 3/100, "*"⟩]).1
      = (List.replicate 50 (5000:ℤ)).take
          (startMs (⟨"w", 5/1000, 3/100, "*"⟩ : ProfanityInstance)).toNat ++
        fade_out (fade_in (audioSlice (List.replicate 40 7000) none
          (some (durMs (⟨"w", 5/1000, 3/100, "*"⟩ : ProfanityInstance)))) 20) 20 ++
        (List.replicate 50 (5000:ℤ)).drop
          (endMs (⟨"w", 5/1000, 3/100, "*"⟩ : ProfanityInstance)).toNat :=
  (C5_single_interval_amended (List.replicate 40 7000) (List.replicate 50 5000)
    ⟨"w", 5/1000, 3/100, "*"⟩ (by decide) (by decide) (by decide) (by decide)
    (by decide)).2.2

set_option maxRecDepth 10000 in
unseal Rat.add Rat.mul Rat.inv Rat.sub Rat.ofScientific List.mergeSort List.merge in
/-- C6, counterexample: the code computes `start_ms = int(start*1000)`
(truncation), not `round(start*1000)`.  For `start = 1.0009765625 s`
(exactly representable in binary floating point, so CPython agrees with the
rational model), `start*1000 = 1000.9765625`: the code produces `1000`, while
the claimed `round` gives `1001`. -/
theorem C6_rounding_cex :
    startMs (⟨"w", 1025/1024, 2, "*"⟩ : ProfanityInstance) = 1000
    ∧ round_half_even ((1025/1024 : ℚ) * 1000) = 1001
    ∧ (1000 : ℤ) ≠ 1001 := by
  refine ⟨by decide, by decide, by decide⟩

/-- C6, amended: the millisecond boundaries are computed by `int()`
truncation toward zero — equivalently, floor for the nonnegative timestamps
the transcriber produces: `start_ms = ⌊start*1000⌋`, `end_ms = ⌊end*1000⌋`. -/
theorem C6_truncation_amended (inst : ProfanityInstance)
    (h1 : 0 ≤ inst.start_time) (h2 : 0 ≤ inst.end_time) :
    startMs inst = ⌊inst.start_time * 1000⌋
    ∧ endMs inst = ⌊inst.end_time * 1000⌋ := by
  unfold startMs endMs pyint
  constructor
  · rw [if_neg (not_lt.mpr (mul_nonneg h1 (by norm_num)))]
  · rw [if_neg (not_lt.mpr (mul_nonneg h2 (by norm_num)))]

/-- Witness for C6 (amended) at the timestamps `1025/1024` and `2`. -/
theorem C6_truncation_amended_witness :
    startMs (⟨"w", 1025/1024, 2, "*"⟩ : ProfanityInstance)
        = ⌊(1025/1024 : ℚ) * 1000⌋
    ∧ endMs (⟨"w", 1025/1024, 2, "*"⟩ : ProfanityInstance) = ⌊(2 : ℚ) * 1000⌋ :=
  C6_truncation_amended ⟨"w", 1025/1024, 2, "*"⟩ (by norm_num) (by norm_num)

/-- C7: for every word timeline and lexicon, the instance list the splicer
sorts (the mutated list `process_audio` returns) is pairwise ordered by
`start_time`, and the sort is stable: for every key value, the instances with
that `start_time` appear in the same relative (transcription) order as in the
scanner's output. -/
theorem C7_ordering_and_stability (cp : String → Bool) (cz : String → String)
    (segs : List WordSeg) (rs audio : List ℤ) (v : ℚ) :
    ((replace_profanity rs audio (detect_profanity cp cz segs)).2).Pairwise
        (fun a b => a.start_time ≤ b.start_time)
    ∧ ((replace_profanity rs audio (detect_profanity cp cz segs)).2).filter
        (fun i => i.start_time = v)
      = (detect_profanity cp cz segs).filter (fun i => i.start_time = v) :=
  ⟨pysort_sorted _, pysort_filter_stable _ v⟩

set_option maxRecDepth 10000 in
/-- C8: with zero flagged instances the report is exactly the header followed
by the single line `No profanity detected in the audio.` with its trailing
newline; the second conjunct states explicitly that no `Total instances
found` count line occurs anywhere in the text. -/
theorem C8_empty_report :
    save_report []
      = "Audio Content Moderation Report\n==============================\n\n"
        ++ "No profanity detected in the audio.\n"
    ∧ ¬ ("Total instances found".data.IsInfix (save_report []).data) := by
  refine ⟨by decide, by decide⟩

/-- C9: the splicer is deterministic — the embedding is a pure function of
the replacement clip, the original samples and the instance list, with no
randomness or clock input, so equal inputs give identical outputs. -/
theorem C9_determinism (rs1 rs2 audio1 audio2 : List ℤ)
    (l1 l2 : List ProfanityInstance)
    (hrs : rs1 = rs2) (haudio : audio1 = audio2) (hl : l1 = l2) :
    replace_profanity rs1 audio1 l1 = replace_profanity rs2 audio2 l2 := by
  rw [hrs, haudio, hl]

/-- Witness for C9 at a concrete input. -/
theorem C9_determinism_witness :
    replace_profanity [1] [2, 3] [] = replace_profanity [1] [2, 3] [] :=
  C9_determinism [1] [1] [2, 3] [2, 3] [] [] rfl rfl rfl

/-- C10: the in-place `profanity_instances.sort(...)` mutation (modelled by
store passing: the splicer returns the sorted list object) is visible to the
caller: the instance list `process_audio` returns is exactly the sorted
(reordered) detection list — the very list the splicer produced — ascending
by `start_time`, not the detection-order list. -/
theorem C10_inplace_sort_mutation (rs : List ℤ) (cp : String → Bool)
    (cz : String → String) (audio : List ℤ) (segs : List WordSeg) :
    (process_audio rs cp cz audio segs).2 = pysort (detect_profanity cp cz segs)
    ∧ (process_audio rs cp cz audio segs).2
        = (replace_profanity rs audio (detect_profanity cp cz segs)).2
    ∧ ((process_audio rs cp cz audio segs).2).Pairwise
        (fun a b => a.start_time ≤ b.start_time) :=
  ⟨rfl, rfl, pysort_sorted _⟩

end Curseless
